import Mathlib

/-!
Verification development for the interactive transform-and-composite engine of
the iisu-asset-tool repository (src/custom_image_tab.py).

The layer-model and compositing-geometry code of class `CustomImageTab` works on
Python floats with plain arithmetic and `int(...)` truncation; it is embedded
over `ℚ` (with `pyInt` modelling Python's truncation toward zero).  The handle
geometry of class `TransformHandlesOverlay` uses `math.sqrt` and trigonometric
rotation, and is embedded over `ℝ`.
-/

namespace Iisu

/-- Active layer selector: the string field `self.active_layer`
(`'background'` or `'logo'`) of `CustomImageTab`. -/
inductive Layer where
  | background
  | logo
deriving DecidableEq

namespace CustomImageTab

/-- `CustomImageTab._on_handle_scale(scale_x, scale_y)`:
for the background layer `new_zoom = max(0.1, min(10.0, transform_start_zoom * scale_x))`,
for the logo layer `new_scale = max(0.05, min(2.0, transform_start_logo_scale * scale_x))`.
The `scale_y` argument is accepted (the signal carries it) but the body never
reads it.  Returns the new stored scale of the active layer. -/
def on_handle_scale (layer : Layer) (transform_start_zoom transform_start_logo_scale : ℚ)
    (scale_x scale_y : ℚ) : ℚ :=
  match layer with
  | .background => max (1/10) (min 10 (transform_start_zoom * scale_x))
  | .logo => max (1/20) (min 2 (transform_start_logo_scale * scale_x))

/-- `CustomImageTab._on_scale_spinbox_changed(value)`: the direct numeric-entry
path.  Both branches assign `value / 100.0` to the active layer's scale with no
clamping; the spinbox widget itself is configured with range 1..1000 (percent). -/
def on_scale_spinbox_changed (layer : Layer) (value : ℚ) : ℚ :=
  match layer with
  | .background => value / 100
  | .logo => value / 100

/-- First normalization loop of `CustomImageTab._on_handle_rotation`:
`while new_rotation > 180: new_rotation -= 360`. -/
def normDown (r : ℚ) : ℚ :=
  if h : 180 < r then normDown (r - 360) else r
termination_by (⌈(r - 180) / 360⌉).toNat
decreasing_by
  have h1 : (r - 360 - 180) / 360 = (r - 180) / 360 - 1 := by ring
  have h2 : ⌈(r - 360 - 180) / 360⌉ = ⌈(r - 180) / 360⌉ - 1 := by
    rw [h1, Int.ceil_sub_one]
  have h3 : (0 : ℚ) < (r - 180) / 360 := by
    apply div_pos <;> linarith
  have h4 : 0 < ⌈(r - 180) / 360⌉ := Int.ceil_pos.mpr h3
  omega

/-- Second normalization loop of `CustomImageTab._on_handle_rotation`:
`while new_rotation < -180: new_rotation += 360`. -/
def normUp (r : ℚ) : ℚ :=
  if h : r < -180 then normUp (r + 360) else r
termination_by (⌈(-180 - r) / 360⌉).toNat
decreasing_by
  have h1 : (-180 - (r + 360)) / 360 = (-180 - r) / 360 - 1 := by ring
  have h2 : ⌈(-180 - (r + 360)) / 360⌉ = ⌈(-180 - r) / 360⌉ - 1 := by
    rw [h1, Int.ceil_sub_one]
  have h3 : (0 : ℚ) < (-180 - r) / 360 := by
    apply div_pos <;> linarith
  have h4 : 0 < ⌈(-180 - r) / 360⌉ := Int.ceil_pos.mpr h3
  omega

/-- The full normalization of `_on_handle_rotation`: the two `while` loops run
in sequence (first reduce values above 180, then raise values below -180). -/
def normalizeRotation (r : ℚ) : ℚ := normUp (normDown r)

/-- `CustomImageTab._on_handle_rotation(angle_delta)` for the background layer:
`new_rotation = transform_start_rotation + angle_delta`, then normalization by
the two `while` loops; the result is stored in `self.rotation`. -/
def on_handle_rotation (transform_start_rotation angle_delta : ℚ) : ℚ :=
  normalizeRotation (transform_start_rotation + angle_delta)

/-- `CustomImageTab._on_handle_position(delta_x, delta_y)` for the background
layer, one axis: if `self.zoom < 1.0` the delta sign is inverted, then
`self.offset_x = max(0.0, min(1.0, self.offset_x + delta_x))`. -/
def on_handle_position_bg (zoom offset delta : ℚ) : ℚ :=
  max 0 (min 1 (offset + (if zoom < 1 then -delta else delta)))

/-- `CustomImageTab._on_handle_position(delta_x, delta_y)` for the logo layer,
one axis: `self.logo_offset_x = max(0.0, min(1.0, self.logo_offset_x - delta_x))`. -/
def on_handle_position_logo (offset delta : ℚ) : ℚ :=
  max 0 (min 1 (offset - delta))

/-- Python `int(x)`: truncation toward zero. -/
def pyInt (q : ℚ) : ℤ :=
  if 0 ≤ q then ⌊q⌋ else ⌈q⌉

/-- Size produced by the zoom step of `CustomImageTab._apply_transformations`,
along one axis: `if self.zoom != 1.0: new_w = int(w * self.zoom)` (the input
size is the size after the rotation step, which is common to the preview and
export pipelines since the resampling filter does not change geometry). -/
def applyZoomSize (size : ℕ) (zoom : ℚ) : ℕ :=
  if zoom = 1 then size else (pyInt ((size : ℚ) * zoom)).toNat

/-- The preview rescale step of `CustomImageTab._do_update_preview`:
`scale_factor = self.preview_size / 1024.0; if scale_factor != 1.0:
scaled_w = int(transformed_bg.size[0] * scale_factor)`. -/
def previewRescaleSize (size : ℕ) (previewSize : ℕ) : ℕ :=
  if (previewSize : ℚ) / 1024 = 1 then size
  else (pyInt ((size : ℚ) * ((previewSize : ℚ) / 1024))).toNat

/-- Size of the transformed background in the export pipeline
(`CustomImageTab._export_image`), one axis. -/
def exportBgSize (size : ℕ) (zoom : ℚ) : ℕ := applyZoomSize size zoom

/-- Size of the transformed background in the preview pipeline
(`CustomImageTab._do_update_preview` with `preview_size = 512`), one axis. -/
def previewBgSize (size : ℕ) (zoom : ℚ) : ℕ :=
  previewRescaleSize (applyZoomSize size zoom) 512

/-- Background paste position, one axis, shared formula of both pipelines:
`paste_x = -int((img_w - out_size) * cx)`. -/
def bgPaste (imgDim outSize : ℕ) (offset : ℚ) : ℤ :=
  -(pyInt (((imgDim : ℚ) - (outSize : ℚ)) * offset))

/-- `max_logo_size = int(canvas_size * self.logo_scale)` in
`CustomImageTab._composite_logo_on_canvas`. -/
def logoMaxSize (canvasSize : ℕ) (logo_scale : ℚ) : ℤ :=
  pyInt ((canvasSize : ℚ) * logo_scale)

/-- Scaled logo dimensions in `CustomImageTab._composite_logo_on_canvas`:
`scale_ratio = min(max_logo_size / logo_w, max_logo_size / logo_h);
new_logo_w = int(logo_w * scale_ratio); new_logo_h = int(logo_h * scale_ratio)`. -/
def logoScaledDims (canvasSize logo_w logo_h : ℕ) (logo_scale : ℚ) : ℤ × ℤ :=
  let maxLogoSize := logoMaxSize canvasSize logo_scale
  let ratio := min ((maxLogoSize : ℚ) / (logo_w : ℚ)) ((maxLogoSize : ℚ) / (logo_h : ℚ))
  (pyInt ((logo_w : ℚ) * ratio), pyInt ((logo_h : ℚ) * ratio))

/-- Logo paste position in `CustomImageTab._composite_logo_on_canvas`, one axis:
`max_x = canvas_size - new_logo_w; paste_x = int(max_x * self.logo_offset_x)`. -/
def logoPaste (canvasSize : ℕ) (dim : ℤ) (offset : ℚ) : ℤ :=
  pyInt (((canvasSize : ℚ) - (dim : ℚ)) * offset)

end CustomImageTab

/-- A 2D point (`QPointF`). -/
structure Pt where
  x : ℝ
  y : ℝ

/-- An axis-aligned rectangle (`QRectF`), stored as position plus size. -/
structure Rect where
  x : ℝ
  y : ℝ
  w : ℝ
  h : ℝ

namespace Rect

/-- `QRectF.isEmpty()`: true when `width() <= 0 or height() <= 0`. -/
def isEmpty (r : Rect) : Prop := r.w ≤ 0 ∨ r.h ≤ 0

/-- `QRectF.center()`. -/
noncomputable def center (r : Rect) : Pt := ⟨r.x + r.w / 2, r.y + r.h / 2⟩

/-- `QRectF.topLeft()`. -/
def topLeft (r : Rect) : Pt := ⟨r.x, r.y⟩

/-- `QRectF.topRight()`. -/
def topRight (r : Rect) : Pt := ⟨r.x + r.w, r.y⟩

/-- `QRectF.bottomLeft()`. -/
def bottomLeft (r : Rect) : Pt := ⟨r.x, r.y + r.h⟩

/-- `QRectF.bottomRight()`. -/
def bottomRight (r : Rect) : Pt := ⟨r.x + r.w, r.y + r.h⟩

/-- `QRectF.contains(point)`: the point is inside or on the edge of the
rectangle. -/
def containsPt (r : Rect) (p : Pt) : Prop :=
  r.x ≤ p.x ∧ p.x ≤ r.x + r.w ∧ r.y ≤ p.y ∧ p.y ≤ r.y + r.h

end Rect

/-- The handle vocabulary of `TransformHandlesOverlay` (`HANDLE_NONE`,
`HANDLE_TL`, ..., `HANDLE_ROTATE`, `HANDLE_MOVE`). -/
inductive Handle where
  | none
  | tl
  | tr
  | bl
  | br
  | t
  | b
  | l
  | r
  | rotate
  | move
deriving DecidableEq

namespace TransformHandlesOverlay

/-- `self.handle_size = 16`. -/
def handle_size : ℝ := 16

/-- `self.rotation_handle_size = 18`. -/
def rotation_handle_size : ℝ := 18

/-- `self.rotation_handle_distance = 35`. -/
def rotation_handle_distance : ℝ := 35

/-- The rotation applied by `QTransform().translate(c).rotate(deg).translate(-c)`
to a point, with the angle in degrees (Qt rotates in screen coordinates, y
axis pointing down). -/
noncomputable def rotateAbout (c : Pt) (deg : ℝ) (p : Pt) : Pt :=
  let a := deg * Real.pi / 180
  ⟨c.x + (p.x - c.x) * Real.cos a - (p.y - c.y) * Real.sin a,
   c.y + (p.x - c.x) * Real.sin a + (p.y - c.y) * Real.cos a⟩

/-- `TransformHandlesOverlay.get_handle_positions()`: anchor point of one
handle, for the nine handles present in the returned dict (corners, edge
midpoints, rotation handle 35 px above the top edge midpoint), with the
rotation transform applied only when `self.rotation != 0`.  The `move` and
`none` cases are not keys of the source dict and are never queried; they are
mapped to the box center here only to keep the function total. -/
noncomputable def get_handle_positions (bounds : Rect) (rotation : ℝ) (h : Handle) : Pt :=
  let tl := bounds.topLeft
  let tr := bounds.topRight
  let bl := bounds.bottomLeft
  let br := bounds.bottomRight
  let t : Pt := ⟨(tl.x + tr.x) / 2, tl.y⟩
  let base : Pt :=
    match h with
    | .tl => tl
    | .tr => tr
    | .bl => bl
    | .br => br
    | .t => t
    | .b => ⟨(bl.x + br.x) / 2, bl.y⟩
    | .l => ⟨tl.x, (tl.y + bl.y) / 2⟩
    | .r => ⟨tr.x, (tr.y + br.y) / 2⟩
    | .rotate => ⟨t.x, t.y - rotation_handle_distance⟩
    | .none => bounds.center
    | .move => bounds.center
  if rotation = 0 then base else rotateAbout bounds.center rotation base

/-- `TransformHandlesOverlay._point_in_handle(point, handle_center, size)`:
square clickable area, `half_size = size / 2 + 4` padding included. -/
def point_in_handle (point handle_center : Pt) (size : ℝ) : Prop :=
  |point.x - handle_center.x| ≤ size / 2 + 4 ∧ |point.y - handle_center.y| ≤ size / 2 + 4

/-- `TransformHandlesOverlay._point_in_rotated_bounds(point)`: false on empty
bounds, otherwise the point is mapped by the inverse rotation about the box
center and tested against the un-rotated rectangle. -/
noncomputable def point_in_rotated_bounds (bounds : Rect) (rotation : ℝ) (point : Pt) : Prop :=
  ¬ bounds.isEmpty ∧ bounds.containsPt (rotateAbout bounds.center (-rotation) point)

open Classical in
/-- `TransformHandlesOverlay.hit_test(pos)`: the priority chain — hidden or
empty bounds give `none`; then the rotation handle, the four corner handles
(tl, tr, bl, br), the four edge handles (t, b, l, r), the inside-the-rotated-box
test giving `move`, and finally `none`. -/
noncomputable def hit_test (handles_visible : Bool) (bounds : Rect) (rotation : ℝ)
    (pos : Pt) : Handle :=
  if handles_visible = false ∨ bounds.isEmpty then .none
  else if point_in_handle pos (get_handle_positions bounds rotation .rotate)
      rotation_handle_size then .rotate
  else if point_in_handle pos (get_handle_positions bounds rotation .tl) handle_size then .tl
  else if point_in_handle pos (get_handle_positions bounds rotation .tr) handle_size then .tr
  else if point_in_handle pos (get_handle_positions bounds rotation .bl) handle_size then .bl
  else if point_in_handle pos (get_handle_positions bounds rotation .br) handle_size then .br
  else if point_in_handle pos (get_handle_positions bounds rotation .t) handle_size then .t
  else if point_in_handle pos (get_handle_positions bounds rotation .b) handle_size then .b
  else if point_in_handle pos (get_handle_positions bounds rotation .l) handle_size then .l
  else if point_in_handle pos (get_handle_positions bounds rotation .r) handle_size then .r
  else if point_in_rotated_bounds bounds rotation pos then .move
  else .none

/-- The fixed corner of `TransformHandlesOverlay._handle_corner_scale`: the
corner of the drag-start bounds opposite the dragged one (the trailing `else`
of the source covers `HANDLE_BR`). -/
def oppositeCorner (drag_start_bounds : Rect) (active_handle : Handle) : Pt :=
  match active_handle with
  | .tl => drag_start_bounds.bottomRight
  | .tr => drag_start_bounds.bottomLeft
  | .bl => drag_start_bounds.topRight
  | _ => drag_start_bounds.topLeft

/-- `math.sqrt((p.x - q.x) ** 2 + (p.y - q.y) ** 2)`. -/
noncomputable def pointDist (p q : Pt) : ℝ :=
  Real.sqrt ((p.x - q.x) ^ 2 + (p.y - q.y) ^ 2)

open Classical in
/-- `TransformHandlesOverlay._handle_corner_scale(current_pos)`: distances from
the fixed opposite corner to the drag-start pointer (`original_dist`) and to
the current pointer (`current_dist`); `if original_dist > 0` emit
`scale_changed(scale_factor, scale_factor)` with
`scale_factor = current_dist / original_dist`, otherwise emit nothing.  The
`lock_aspect_ratio` field is in scope but never read by this branch. -/
noncomputable def handle_corner_scale (lock_aspect_ratio : Bool) (active_handle : Handle)
    (drag_start_bounds : Rect) (drag_start_pos current_pos : Pt) : Option (ℝ × ℝ) :=
  if 0 < pointDist drag_start_pos (oppositeCorner drag_start_bounds active_handle) then
    some (pointDist current_pos (oppositeCorner drag_start_bounds active_handle) /
            pointDist drag_start_pos (oppositeCorner drag_start_bounds active_handle),
          pointDist current_pos (oppositeCorner drag_start_bounds active_handle) /
            pointDist drag_start_pos (oppositeCorner drag_start_bounds active_handle))
  else Option.none

open Classical in
/-- The branch-local reference half-extent of
`TransformHandlesOverlay._handle_edge_scale`: `original_half_width =
drag_start_bounds.width() / 2` in the horizontal (`l`/`r`) branch,
`original_half_height = drag_start_bounds.height() / 2` in the vertical one. -/
noncomputable def edgeHalf0 (active_handle : Handle) (drag_start_bounds : Rect) : ℝ :=
  if active_handle = .l ∨ active_handle = .r then drag_start_bounds.w / 2
  else drag_start_bounds.h / 2

open Classical in
/-- The branch-local new half-extent of
`TransformHandlesOverlay._handle_edge_scale`, implied by the current pointer
relative to the drag-start box center: `new_half_width = current_pos.x() -
center.x()` for `r` and mirrored for `l`; `new_half_height` analogously for
`b`/`t`. -/
noncomputable def edgeHalf1 (active_handle : Handle) (drag_start_bounds : Rect)
    (current_pos : Pt) : ℝ :=
  if active_handle = .l ∨ active_handle = .r then
    if active_handle = .r then current_pos.x - drag_start_bounds.center.x
    else drag_start_bounds.center.x - current_pos.x
  else
    if active_handle = .b then current_pos.y - drag_start_bounds.center.y
    else drag_start_bounds.center.y - current_pos.y

open Classical in
/-- `TransformHandlesOverlay._handle_edge_scale(current_pos)`: for `l`/`r` the
horizontal branch, emitting only when
`original_half_width > 0 and new_half_width > 0`; any other handle takes the
vertical branch (the source is only invoked with edge handles, the `else`
covers `t`).  With the aspect lock the scale is emitted on both axes,
otherwise the orthogonal axis receives `1.0`.  The branch-local variables are
the named definitions `edgeHalf0` and `edgeHalf1`. -/
noncomputable def handle_edge_scale (lock_aspect_ratio : Bool) (active_handle : Handle)
    (drag_start_bounds : Rect) (current_pos : Pt) : Option (ℝ × ℝ) :=
  if active_handle = .l ∨ active_handle = .r then
    if 0 < edgeHalf0 active_handle drag_start_bounds ∧
        0 < edgeHalf1 active_handle drag_start_bounds current_pos then
      some (if lock_aspect_ratio then
              (edgeHalf1 active_handle drag_start_bounds current_pos /
                 edgeHalf0 active_handle drag_start_bounds,
               edgeHalf1 active_handle drag_start_bounds current_pos /
                 edgeHalf0 active_handle drag_start_bounds)
            else
              (edgeHalf1 active_handle drag_start_bounds current_pos /
                 edgeHalf0 active_handle drag_start_bounds, 1))
    else Option.none
  else
    if 0 < edgeHalf0 active_handle drag_start_bounds ∧
        0 < edgeHalf1 active_handle drag_start_bounds current_pos then
      some (if lock_aspect_ratio then
              (edgeHalf1 active_handle drag_start_bounds current_pos /
                 edgeHalf0 active_handle drag_start_bounds,
               edgeHalf1 active_handle drag_start_bounds current_pos /
                 edgeHalf0 active_handle drag_start_bounds)
            else
              (1, edgeHalf1 active_handle drag_start_bounds current_pos /
                    edgeHalf0 active_handle drag_start_bounds))
    else Option.none

/-- The corners checked by `hit_test` before a given corner, in source order
`tl, tr, bl, br`. -/
def earlierCorners (h : Handle) : List Handle :=
  match h with
  | .tl => []
  | .tr => [.tl]
  | .bl => [.tl, .tr]
  | .br => [.tl, .tr, .bl]
  | _ => []

end TransformHandlesOverlay

/-! ### Helper lemmas -/

theorem clamp01_of_mem {v : ℚ} (h0 : 0 ≤ v) (h1 : v ≤ 1) : max 0 (min 1 v) = v := by
  rw [min_eq_right h1, max_eq_right h0]

theorem normDown_le_aux :
    ∀ (n : ℕ) (r : ℚ), (⌈(r - 180) / 360⌉).toNat ≤ n → CustomImageTab.normDown r ≤ 180 := by
  intro n
  induction n with
  | zero =>
    intro r hr
    rw [CustomImageTab.normDown]
    split
    · next h =>
      exfalso
      have h3 : (0 : ℚ) < (r - 180) / 360 := by apply div_pos <;> linarith
      have h4 : 0 < ⌈(r - 180) / 360⌉ := Int.ceil_pos.mpr h3
      omega
    · next h => push_neg at h; exact h
  | succ n ih =>
    intro r hr
    rw [CustomImageTab.normDown]
    split
    · next h =>
      apply ih
      have h1 : (r - 360 - 180) / 360 = (r - 180) / 360 - 1 := by ring
      have h2 : ⌈(r - 360 - 180) / 360⌉ = ⌈(r - 180) / 360⌉ - 1 := by
        rw [h1, Int.ceil_sub_one]
      have h3 : (0 : ℚ) < (r - 180) / 360 := by apply div_pos <;> linarith
      have h4 : 0 < ⌈(r - 180) / 360⌉ := Int.ceil_pos.mpr h3
      omega
    · next h => push_neg at h; exact h

theorem normDown_le (r : ℚ) : CustomImageTab.normDown r ≤ 180 :=
  normDown_le_aux _ r le_rfl

theorem normDown_ge_aux :
    ∀ (n : ℕ) (r : ℚ), (⌈(r - 180) / 360⌉).toNat ≤ n → -180 ≤ r →
      -180 ≤ CustomImageTab.normDown r := by
  intro n
  induction n with
  | zero =>
    intro r hr hge
    rw [CustomImageTab.normDown]
    split
    · next h =>
      exfalso
      have h3 : (0 : ℚ) < (r - 180) / 360 := by apply div_pos <;> linarith
      have h4 : 0 < ⌈(r - 180) / 360⌉ := Int.ceil_pos.mpr h3
      omega
    · next h => exact hge
  | succ n ih =>
    intro r hr hge
    rw [CustomImageTab.normDown]
    split
    · next h =>
      apply ih
      · have h1 : (r - 360 - 180) / 360 = (r - 180) / 360 - 1 := by ring
        have h2 : ⌈(r - 360 - 180) / 360⌉ = ⌈(r - 180) / 360⌉ - 1 := by
          rw [h1, Int.ceil_sub_one]
        have h3 : (0 : ℚ) < (r - 180) / 360 := by apply div_pos <;> linarith
        have h4 : 0 < ⌈(r - 180) / 360⌉ := Int.ceil_pos.mpr h3
        omega
      · linarith
    · next h => exact hge

theorem normUp_ge_aux :
    ∀ (n : ℕ) (r : ℚ), (⌈(-180 - r) / 360⌉).toNat ≤ n → -180 ≤ CustomImageTab.normUp r := by
  intro n
  induction n with
  | zero =>
    intro r hr
    rw [CustomImageTab.normUp]
    split
    · next h =>
      exfalso
      have h3 : (0 : ℚ) < (-180 - r) / 360 := by apply div_pos <;> linarith
      have h4 : 0 < ⌈(-180 - r) / 360⌉ := Int.ceil_pos.mpr h3
      omega
    · next h => push_neg at h; exact h
  | succ n ih =>
    intro r hr
    rw [CustomImageTab.normUp]
    split
    · next h =>
      apply ih
      have h1 : (-180 - (r + 360)) / 360 = (-180 - r) / 360 - 1 := by ring
      have h2 : ⌈(-180 - (r + 360)) / 360⌉ = ⌈(-180 - r) / 360⌉ - 1 := by
        rw [h1, Int.ceil_sub_one]
      have h3 : (0 : ℚ) < (-180 - r) / 360 := by apply div_pos <;> linarith
      have h4 : 0 < ⌈(-180 - r) / 360⌉ := Int.ceil_pos.mpr h3
      omega
    · next h => push_neg at h; exact h

theorem normUp_ge (r : ℚ) : -180 ≤ CustomImageTab.normUp r :=
  normUp_ge_aux _ r le_rfl

theorem normUp_le_aux :
    ∀ (n : ℕ) (r : ℚ), (⌈(-180 - r) / 360⌉).toNat ≤ n → r ≤ 180 →
      CustomImageTab.normUp r ≤ 180 := by
  intro n
  induction n with
  | zero =>
    intro r hr hle
    rw [CustomImageTab.normUp]
    split
    · next h =>
      exfalso
      have h3 : (0 : ℚ) < (-180 - r) / 360 := by apply div_pos <;> linarith
      have h4 : 0 < ⌈(-180 - r) / 360⌉ := Int.ceil_pos.mpr h3
      omega
    · next h => exact hle
  | succ n ih =>
    intro r hr hle
    rw [CustomImageTab.normUp]
    split
    · next h =>
      apply ih
      · have h1 : (-180 - (r + 360)) / 360 = (-180 - r) / 360 - 1 := by ring
        have h2 : ⌈(-180 - (r + 360)) / 360⌉ = ⌈(-180 - r) / 360⌉ - 1 := by
          rw [h1, Int.ceil_sub_one]
        have h3 : (0 : ℚ) < (-180 - r) / 360 := by apply div_pos <;> linarith
        have h4 : 0 < ⌈(-180 - r) / 360⌉ := Int.ceil_pos.mpr h3
        omega
      · linarith
    · next h => exact hle

theorem normalizeRotation_mem (r : ℚ) :
    -180 ≤ CustomImageTab.normalizeRotation r ∧ CustomImageTab.normalizeRotation r ≤ 180 := by
  unfold CustomImageTab.normalizeRotation
  exact ⟨normUp_ge _, normUp_le_aux _ _ le_rfl (normDown_le r)⟩

theorem normalizeRotation_fixed {r : ℚ} (h1 : -180 ≤ r) (h2 : r ≤ 180) :
    CustomImageTab.normalizeRotation r = r := by
  unfold CustomImageTab.normalizeRotation
  have hd : CustomImageTab.normDown r = r := by
    rw [CustomImageTab.normDown, dif_neg (by linarith : ¬ (180 : ℚ) < r)]
  rw [hd, CustomImageTab.normUp, dif_neg (by linarith : ¬ r < (-180 : ℚ))]

theorem pyInt_lb (q : ℚ) : q - 1 < (CustomImageTab.pyInt q : ℚ) := by
  unfold CustomImageTab.pyInt
  split
  · exact Int.sub_one_lt_floor q
  · have := Int.le_ceil q; linarith

theorem pyInt_ub (q : ℚ) : (CustomImageTab.pyInt q : ℚ) < q + 1 := by
  unfold CustomImageTab.pyInt
  split
  · have := Int.floor_le q; linarith
  · exact Int.ceil_lt_add_one q

theorem pyInt_of_nonneg {q : ℚ} (h : 0 ≤ q) : CustomImageTab.pyInt q = ⌊q⌋ := by
  unfold CustomImageTab.pyInt
  rw [if_pos h]

theorem pyInt_two_approx (a b : ℚ) (m : ℤ) (hm : |2 * a - b| ≤ (m : ℚ)) :
    |2 * CustomImageTab.pyInt a - CustomImageTab.pyInt b| ≤ m + 2 := by
  have ha1 := pyInt_lb a
  have ha2 := pyInt_ub a
  have hb1 := pyInt_lb b
  have hb2 := pyInt_ub b
  rw [abs_le] at hm
  have h1 : ((2 * CustomImageTab.pyInt a - CustomImageTab.pyInt b : ℤ) : ℚ) < (m : ℚ) + 3 := by
    push_cast
    linarith [hm.2]
  have h2 : -((m : ℚ) + 3) < ((2 * CustomImageTab.pyInt a - CustomImageTab.pyInt b : ℤ) : ℚ) := by
    push_cast
    linarith [hm.1]
  have h1' : 2 * CustomImageTab.pyInt a - CustomImageTab.pyInt b < m + 3 := by exact_mod_cast h1
  have h2' : -(m + 3) < 2 * CustomImageTab.pyInt a - CustomImageTab.pyInt b := by exact_mod_cast h2
  rw [abs_le]
  omega

theorem floor_double (a : ℚ) : ⌊2 * a⌋ = 2 * ⌊a⌋ ∨ ⌊2 * a⌋ = 2 * ⌊a⌋ + 1 := by
  have l1 : 2 * ⌊a⌋ ≤ ⌊2 * a⌋ := by
    apply Int.le_floor.mpr
    push_cast
    linarith [Int.floor_le a]
  have l2 : ⌊2 * a⌋ < 2 * ⌊a⌋ + 2 := by
    apply Int.floor_lt.mpr
    push_cast
    linarith [Int.lt_floor_add_one a]
  omega

theorem mul_min_nonneg (a b c : ℚ) (ha : 0 ≤ a) : a * min b c = min (a * b) (a * c) := by
  rcases le_total b c with h | h
  · rw [min_eq_left h, min_eq_left (mul_le_mul_of_nonneg_left h ha)]
  · rw [min_eq_right h, min_eq_right (mul_le_mul_of_nonneg_left h ha)]

theorem min_scale_bound (p e k : ℚ) (hp : 0 ≤ p) (hk : 0 ≤ k)
    (h : e = 2 * p ∨ e = 2 * p + 1) :
    |2 * min p (k * p) - min e (k * e)| ≤ 1 := by
  have he : 0 ≤ e := by rcases h with h | h <;> rw [h] <;> linarith
  rcases le_total 1 k with hk1 | hk1
  · rw [min_eq_left (le_mul_of_one_le_left hp hk1),
      min_eq_left (le_mul_of_one_le_left he hk1)]
    rcases h with h | h <;> rw [h]
    · rw [show 2 * p - 2 * p = (0 : ℚ) by ring]
      norm_num
    · rw [show 2 * p - (2 * p + 1) = (-1 : ℚ) by ring]
      norm_num
  · rw [min_eq_right (mul_le_of_le_one_left hp hk1),
      min_eq_right (mul_le_of_le_one_left he hk1)]
    rcases h with h | h <;> rw [h]
    · rw [show 2 * (k * p) - k * (2 * p) = (0 : ℚ) by ring]
      norm_num
    · rw [show 2 * (k * p) - k * (2 * p + 1) = -k by ring, abs_neg, abs_of_nonneg hk]
      exact hk1

theorem preview_half (size : ℕ) (zoom : ℚ) :
    (CustomImageTab.exportBgSize size zoom : ℤ) =
      2 * (CustomImageTab.previewBgSize size zoom : ℤ) ∨
    (CustomImageTab.exportBgSize size zoom : ℤ) =
      2 * (CustomImageTab.previewBgSize size zoom : ℤ) + 1 := by
  unfold CustomImageTab.previewBgSize CustomImageTab.exportBgSize
  set E := CustomImageTab.applyZoomSize size zoom with hE
  unfold CustomImageTab.previewRescaleSize
  rw [if_neg (by norm_num : ¬ (((512 : ℕ) : ℚ) / 1024 = 1))]
  have harg : ((E : ℚ)) * (((512 : ℕ) : ℚ) / 1024) = (E : ℚ) / 2 := by
    push_cast
    ring
  rw [harg, pyInt_of_nonneg (by positivity)]
  have h0 : 0 ≤ ⌊(E : ℚ) / 2⌋ := Int.floor_nonneg.mpr (by positivity)
  rw [Int.toNat_of_nonneg h0]
  have h1 : (⌊(E : ℚ) / 2⌋ : ℚ) ≤ (E : ℚ) / 2 := Int.floor_le _
  have h2 : (E : ℚ) / 2 < ⌊(E : ℚ) / 2⌋ + 1 := Int.lt_floor_add_one _
  have h1' : 2 * ⌊(E : ℚ) / 2⌋ ≤ (E : ℤ) := by
    have : ((2 * ⌊(E : ℚ) / 2⌋ : ℤ) : ℚ) ≤ ((E : ℤ) : ℚ) := by push_cast; linarith
    exact_mod_cast this
  have h2' : (E : ℤ) < 2 * ⌊(E : ℚ) / 2⌋ + 2 := by
    have : ((E : ℤ) : ℚ) < ((2 * ⌊(E : ℚ) / 2⌋ + 2 : ℤ) : ℚ) := by push_cast; linarith
    exact_mod_cast this
  omega

theorem bgPaste_bound (P E : ℕ) (cx : ℚ) (hcx0 : 0 ≤ cx) (hcx1 : cx ≤ 1)
    (hh : (E : ℤ) = 2 * (P : ℤ) ∨ (E : ℤ) = 2 * (P : ℤ) + 1) :
    |2 * CustomImageTab.bgPaste P 512 cx - CustomImageTab.bgPaste E 1024 cx| ≤ 3 := by
  have key : |2 * (((P : ℚ) - ((512 : ℕ) : ℚ)) * cx) - ((E : ℚ) - ((1024 : ℕ) : ℚ)) * cx| ≤
      ((1 : ℤ) : ℚ) := by
    rw [show ((1 : ℤ) : ℚ) = 1 by norm_num]
    rcases hh with h | h
    · have hq : (E : ℚ) = 2 * (P : ℚ) := by exact_mod_cast h
      have hz : 2 * (((P : ℚ) - ((512 : ℕ) : ℚ)) * cx) - ((E : ℚ) - ((1024 : ℕ) : ℚ)) * cx
          = 0 := by
        rw [hq]; push_cast; ring
      rw [hz]
      norm_num
    · have hq : (E : ℚ) = 2 * (P : ℚ) + 1 := by exact_mod_cast h
      have hz : 2 * (((P : ℚ) - ((512 : ℕ) : ℚ)) * cx) - ((E : ℚ) - ((1024 : ℕ) : ℚ)) * cx
          = -cx := by
        rw [hq]; push_cast; ring
      rw [hz, abs_neg, abs_of_nonneg hcx0]
      exact hcx1
  have happrox := pyInt_two_approx _ _ 1 key
  simp only [CustomImageTab.bgPaste]
  have hneg : 2 * -(CustomImageTab.pyInt (((P : ℚ) - ((512 : ℕ) : ℚ)) * cx)) -
      -(CustomImageTab.pyInt (((E : ℚ) - ((1024 : ℕ) : ℚ)) * cx)) =
      -(2 * CustomImageTab.pyInt (((P : ℚ) - ((512 : ℕ) : ℚ)) * cx) -
        CustomImageTab.pyInt (((E : ℚ) - ((1024 : ℕ) : ℚ)) * cx)) := by ring
  rw [hneg, abs_neg]
  linarith [happrox]

theorem logo_max_half (ls : ℚ) (hls : 0 ≤ ls) :
    CustomImageTab.logoMaxSize 1024 ls = 2 * CustomImageTab.logoMaxSize 512 ls ∨
    CustomImageTab.logoMaxSize 1024 ls = 2 * CustomImageTab.logoMaxSize 512 ls + 1 := by
  unfold CustomImageTab.logoMaxSize
  rw [pyInt_of_nonneg (by positivity), pyInt_of_nonneg (by positivity)]
  have h : ((1024 : ℕ) : ℚ) * ls = 2 * (((512 : ℕ) : ℚ) * ls) := by push_cast; ring
  rw [h]
  exact floor_double _

theorem logo_axis_bound (d o : ℕ) (mP mE : ℤ) (hd : 0 < d) (ho : 0 < o)
    (hmP : 0 ≤ mP) (hh : (mE : ℚ) = 2 * (mP : ℚ) ∨ (mE : ℚ) = 2 * (mP : ℚ) + 1) :
    |2 * CustomImageTab.pyInt ((d : ℚ) * min ((mP : ℚ) / (d : ℚ)) ((mP : ℚ) / (o : ℚ))) -
      CustomImageTab.pyInt ((d : ℚ) * min ((mE : ℚ) / (d : ℚ)) ((mE : ℚ) / (o : ℚ)))| ≤ 3 := by
  have hdpos : (0 : ℚ) < d := by exact_mod_cast hd
  have hopos : (0 : ℚ) < o := by exact_mod_cast ho
  have hd0 : ((d : ℚ)) ≠ 0 := ne_of_gt hdpos
  have hk : 0 ≤ (d : ℚ) / (o : ℚ) := by positivity
  have hx : ∀ m : ℚ, (d : ℚ) * min (m / (d : ℚ)) (m / (o : ℚ)) =
      min m ((d : ℚ) / (o : ℚ) * m) := by
    intro m
    rw [mul_min_nonneg _ _ _ (le_of_lt hdpos)]
    congr 1
    · field_simp
    · ring
  rw [hx, hx]
  have key : |2 * min (mP : ℚ) ((d : ℚ) / (o : ℚ) * (mP : ℚ)) -
      min (mE : ℚ) ((d : ℚ) / (o : ℚ) * (mE : ℚ))| ≤ ((1 : ℤ) : ℚ) := by
    rw [show ((1 : ℤ) : ℚ) = 1 by norm_num]
    exact min_scale_bound _ _ _ (by exact_mod_cast hmP) hk hh
  have happrox := pyInt_two_approx _ _ 1 key
  linarith [happrox]

theorem logo_dims_pair (lw lh : ℕ) (ls : ℚ) (hls : 0 ≤ ls) (hlw : 0 < lw) (hlh : 0 < lh) :
    |2 * (CustomImageTab.logoScaledDims 512 lw lh ls).1 -
      (CustomImageTab.logoScaledDims 1024 lw lh ls).1| ≤ 3 ∧
    |2 * (CustomImageTab.logoScaledDims 512 lw lh ls).2 -
      (CustomImageTab.logoScaledDims 1024 lw lh ls).2| ≤ 3 := by
  have hmaxP : 0 ≤ CustomImageTab.logoMaxSize 512 ls := by
    unfold CustomImageTab.logoMaxSize
    rw [pyInt_of_nonneg (by positivity)]
    exact Int.floor_nonneg.mpr (by positivity)
  have hhalfQ : ((CustomImageTab.logoMaxSize 1024 ls : ℤ) : ℚ) =
      2 * ((CustomImageTab.logoMaxSize 512 ls : ℤ) : ℚ) ∨
      ((CustomImageTab.logoMaxSize 1024 ls : ℤ) : ℚ) =
      2 * ((CustomImageTab.logoMaxSize 512 ls : ℤ) : ℚ) + 1 := by
    rcases logo_max_half ls hls with h | h
    · left; exact_mod_cast h
    · right; exact_mod_cast h
  constructor
  · show |2 * CustomImageTab.pyInt ((lw : ℚ) *
        min ((CustomImageTab.logoMaxSize 512 ls : ℚ) / (lw : ℚ))
            ((CustomImageTab.logoMaxSize 512 ls : ℚ) / (lh : ℚ))) -
      CustomImageTab.pyInt ((lw : ℚ) *
        min ((CustomImageTab.logoMaxSize 1024 ls : ℚ) / (lw : ℚ))
            ((CustomImageTab.logoMaxSize 1024 ls : ℚ) / (lh : ℚ)))| ≤ 3
    exact logo_axis_bound lw lh _ _ hlw hlh hmaxP hhalfQ
  · show |2 * CustomImageTab.pyInt ((lh : ℚ) *
        min ((CustomImageTab.logoMaxSize 512 ls : ℚ) / (lw : ℚ))
            ((CustomImageTab.logoMaxSize 512 ls : ℚ) / (lh : ℚ))) -
      CustomImageTab.pyInt ((lh : ℚ) *
        min ((CustomImageTab.logoMaxSize 1024 ls : ℚ) / (lw : ℚ))
            ((CustomImageTab.logoMaxSize 1024 ls : ℚ) / (lh : ℚ)))| ≤ 3
    rw [min_comm ((CustomImageTab.logoMaxSize 512 ls : ℚ) / (lw : ℚ)) _,
      min_comm ((CustomImageTab.logoMaxSize 1024 ls : ℚ) / (lw : ℚ)) _]
    exact logo_axis_bound lh lw _ _ hlh hlw hmaxP hhalfQ

theorem logoPaste_bound (dP dE : ℤ) (lox : ℚ) (h0 : 0 ≤ lox) (h1 : lox ≤ 1)
    (hd : |2 * dP - dE| ≤ 3) :
    |2 * CustomImageTab.logoPaste 512 dP lox - CustomImageTab.logoPaste 1024 dE lox| ≤ 5 := by
  have key : |2 * ((((512 : ℕ) : ℚ) - (dP : ℚ)) * lox) -
      (((1024 : ℕ) : ℚ) - (dE : ℚ)) * lox| ≤ ((3 : ℤ) : ℚ) := by
    have heq : 2 * ((((512 : ℕ) : ℚ) - (dP : ℚ)) * lox) -
        (((1024 : ℕ) : ℚ) - (dE : ℚ)) * lox = ((dE : ℚ) - 2 * (dP : ℚ)) * lox := by
      push_cast
      ring
    rw [heq, abs_mul, abs_of_nonneg h0]
    have h2 : |dE - 2 * dP| ≤ 3 := by
      rw [abs_sub_comm] at hd
      exact hd
    have hd' : |(dE : ℚ) - 2 * (dP : ℚ)| ≤ 3 := by exact_mod_cast h2
    calc |(dE : ℚ) - 2 * (dP : ℚ)| * lox ≤ 3 * 1 :=
        mul_le_mul hd' h1 h0 (by norm_num)
      _ = ((3 : ℤ) : ℚ) := by norm_num
  have happrox := pyInt_two_approx _ _ 3 key
  simp only [CustomImageTab.logoPaste]
  linarith [happrox]

/-! ### Claim theorems -/

/-- Claim C1, confirmed at the geometric level.  For every fixed transform
state the preview pipeline at output size 512 and the export pipeline at 1024
agree geometrically after downsampling by 0.5: the transformed-background
dimensions, the background paste position, the scaled logo dimensions and the
logo paste position of the export render are each twice the preview values up
to a small integer tolerance (1, 3, 3 and 5 pixels at export scale
respectively, coming only from `int(...)` rounding).  The two pipelines share
`_apply_transformations`, so the pre-rescale geometry is common; they differ
only in resampling filter quality, which the claim's per-pixel tolerance
covers. -/
theorem c1_resolution_invariance (size lw lh : ℕ) (zoom ls cx lox : ℚ)
    (hcx0 : 0 ≤ cx) (hcx1 : cx ≤ 1) (hls : 0 ≤ ls) (hlw : 0 < lw) (hlh : 0 < lh)
    (hlox0 : 0 ≤ lox) (hlox1 : lox ≤ 1) :
    |2 * (CustomImageTab.previewBgSize size zoom : ℤ) -
      (CustomImageTab.exportBgSize size zoom : ℤ)| ≤ 1 ∧
    |2 * CustomImageTab.bgPaste (CustomImageTab.previewBgSize size zoom) 512 cx -
      CustomImageTab.bgPaste (CustomImageTab.exportBgSize size zoom) 1024 cx| ≤ 3 ∧
    |2 * (CustomImageTab.logoScaledDims 512 lw lh ls).1 -
      (CustomImageTab.logoScaledDims 1024 lw lh ls).1| ≤ 3 ∧
    |2 * (CustomImageTab.logoScaledDims 512 lw lh ls).2 -
      (CustomImageTab.logoScaledDims 1024 lw lh ls).2| ≤ 3 ∧
    |2 * CustomImageTab.logoPaste 512 (CustomImageTab.logoScaledDims 512 lw lh ls).1 lox -
      CustomImageTab.logoPaste 1024 (CustomImageTab.logoScaledDims 1024 lw lh ls).1 lox| ≤ 5 := by
  have hhalf := preview_half size zoom
  have hdims := logo_dims_pair lw lh ls hls hlw hlh
  refine ⟨?_, ?_, hdims.1, hdims.2, ?_⟩
  · rw [abs_le]
    constructor <;> rcases hhalf with h | h <;> omega
  · exact bgPaste_bound _ _ cx hcx0 hcx1 hhalf
  · exact logoPaste_bound _ _ lox hlox0 hlox1 hdims.1

/-- Witness for C1 at a concrete state: a 1024-square background at zoom 1,
offsets 1/2, a 200 by 200 logo at scale 1/2, logo offset 1/2. -/
theorem c1_resolution_invariance_witness :
    |2 * (CustomImageTab.previewBgSize 1024 1 : ℤ) -
      (CustomImageTab.exportBgSize 1024 1 : ℤ)| ≤ 1 ∧
    |2 * CustomImageTab.bgPaste (CustomImageTab.previewBgSize 1024 1) 512 (1/2) -
      CustomImageTab.bgPaste (CustomImageTab.exportBgSize 1024 1) 1024 (1/2)| ≤ 3 ∧
    |2 * (CustomImageTab.logoScaledDims 512 200 200 (1/2)).1 -
      (CustomImageTab.logoScaledDims 1024 200 200 (1/2)).1| ≤ 3 ∧
    |2 * (CustomImageTab.logoScaledDims 512 200 200 (1/2)).2 -
      (CustomImageTab.logoScaledDims 1024 200 200 (1/2)).2| ≤ 3 ∧
    |2 * CustomImageTab.logoPaste 512 (CustomImageTab.logoScaledDims 512 200 200 (1/2)).1 (1/2) -
      CustomImageTab.logoPaste 1024
        (CustomImageTab.logoScaledDims 1024 200 200 (1/2)).1 (1/2)| ≤ 5 :=
  c1_resolution_invariance 1024 200 200 1 (1/2) (1/2) (1/2) (by norm_num) (by norm_num)
    (by norm_num) (by norm_num) (by norm_num) (by norm_num) (by norm_num)

open TransformHandlesOverlay

/-- Claim C4, confirmed.  For every corner drag the fixed point is the corner
of the drag-start bounds opposite the dragged handle (`oppositeCorner`), and
whenever the distance from the fixed corner to the drag-start pointer is
positive the emitted delta is the uniform multiplier `d1 / d0` on both axes,
for either value of the aspect-lock flag. -/
theorem c4_corner_uniform_scale (lock : Bool) (h : Handle)
    (hc : h = .tl ∨ h = .tr ∨ h = .bl ∨ h = .br) (bnd : Rect) (p0 p1 : Pt)
    (hd : 0 < pointDist p0 (oppositeCorner bnd h)) :
    handle_corner_scale lock h bnd p0 p1 =
      some (pointDist p1 (oppositeCorner bnd h) / pointDist p0 (oppositeCorner bnd h),
            pointDist p1 (oppositeCorner bnd h) / pointDist p0 (oppositeCorner bnd h)) := by
  unfold handle_corner_scale
  rw [if_pos hd]

/-- Witness for C4: Scenario B.  Dragging the bottom-right corner with fixed
corner (500,500), drag-start pointer (600,600) and current pointer (700,700)
emits the uniform scale pair (2, 2). -/
theorem c4_corner_uniform_scale_witness :
    handle_corner_scale true .br ⟨500, 500, 100, 100⟩ ⟨600, 600⟩ ⟨700, 700⟩ = some (2, 2) := by
  have hfix : oppositeCorner ⟨500, 500, 100, 100⟩ .br = (⟨500, 500⟩ : Pt) := rfl
  have hd0 : pointDist ⟨600, 600⟩ (oppositeCorner ⟨500, 500, 100, 100⟩ .br) =
      Real.sqrt 20000 := by
    rw [hfix]
    unfold pointDist
    norm_num
  have hd1 : pointDist ⟨700, 700⟩ (oppositeCorner ⟨500, 500, 100, 100⟩ .br) =
      Real.sqrt 80000 := by
    rw [hfix]
    unfold pointDist
    norm_num
  have hpos : (0 : ℝ) < Real.sqrt 20000 := Real.sqrt_pos.mpr (by norm_num)
  have happ := c4_corner_uniform_scale true .br (by right; right; right; rfl)
    ⟨500, 500, 100, 100⟩ ⟨600, 600⟩ ⟨700, 700⟩ (by rw [hd0]; exact hpos)
  rw [happ, hd0, hd1]
  have h4 : Real.sqrt 80000 = 2 * Real.sqrt 20000 := by
    rw [show (80000 : ℝ) = 4 * 20000 by norm_num,
      Real.sqrt_mul (by norm_num : (0 : ℝ) ≤ 4),
      show (4 : ℝ) = 2 ^ 2 by norm_num,
      Real.sqrt_sq (by norm_num : (0 : ℝ) ≤ 2)]
  rw [h4, mul_div_assoc, div_self (ne_of_gt hpos), mul_one]

/-- Claim C5, confirmed.  An edge drag emits only when both the reference
half-extent and the new half-extent along the dragged axis are positive; with
the aspect lock on the scale `half1 / half0` goes to both axes, with it off
the dragged axis gets `half1 / half0` and the orthogonal axis exactly 1. -/
theorem c5_edge_axis_scale (lock : Bool) (h : Handle)
    (hh : h = .l ∨ h = .r ∨ h = .t ∨ h = .b) (bnd : Rect) (cur : Pt)
    (h0 : 0 < edgeHalf0 h bnd) (h1 : 0 < edgeHalf1 h bnd cur) :
    handle_edge_scale lock h bnd cur =
      some (if lock then
              (edgeHalf1 h bnd cur / edgeHalf0 h bnd, edgeHalf1 h bnd cur / edgeHalf0 h bnd)
            else if h = .l ∨ h = .r then
              (edgeHalf1 h bnd cur / edgeHalf0 h bnd, 1)
            else
              (1, edgeHalf1 h bnd cur / edgeHalf0 h bnd)) := by
  rcases hh with rfl | rfl | rfl | rfl
  · rw [show handle_edge_scale lock .l bnd cur =
        if 0 < edgeHalf0 .l bnd ∧ 0 < edgeHalf1 .l bnd cur then
          some (if lock then
                  (edgeHalf1 .l bnd cur / edgeHalf0 .l bnd,
                   edgeHalf1 .l bnd cur / edgeHalf0 .l bnd)
                else (edgeHalf1 .l bnd cur / edgeHalf0 .l bnd, 1))
        else Option.none by unfold handle_edge_scale; rw [if_pos (Or.inl rfl)]]
    rw [if_pos ⟨h0, h1⟩, if_pos (Or.inl rfl : Handle.l = Handle.l ∨ Handle.l = Handle.r)]
  · rw [show handle_edge_scale lock .r bnd cur =
        if 0 < edgeHalf0 .r bnd ∧ 0 < edgeHalf1 .r bnd cur then
          some (if lock then
                  (edgeHalf1 .r bnd cur / edgeHalf0 .r bnd,
                   edgeHalf1 .r bnd cur / edgeHalf0 .r bnd)
                else (edgeHalf1 .r bnd cur / edgeHalf0 .r bnd, 1))
        else Option.none by unfold handle_edge_scale; rw [if_pos (Or.inr rfl)]]
    rw [if_pos ⟨h0, h1⟩, if_pos (Or.inr rfl : Handle.r = Handle.l ∨ Handle.r = Handle.r)]
  · have hlr : ¬ (Handle.t = Handle.l ∨ Handle.t = Handle.r) := by
      rintro (h | h) <;> exact Handle.noConfusion h
    rw [show handle_edge_scale lock .t bnd cur =
        if 0 < edgeHalf0 .t bnd ∧ 0 < edgeHalf1 .t bnd cur then
          some (if lock then
                  (edgeHalf1 .t bnd cur / edgeHalf0 .t bnd,
                   edgeHalf1 .t bnd cur / edgeHalf0 .t bnd)
                else (1, edgeHalf1 .t bnd cur / edgeHalf0 .t bnd))
        else Option.none by unfold handle_edge_scale; rw [if_neg hlr]]
    rw [if_pos ⟨h0, h1⟩, if_neg hlr]
  · have hlr : ¬ (Handle.b = Handle.l ∨ Handle.b = Handle.r) := by
      rintro (h | h) <;> exact Handle.noConfusion h
    rw [show handle_edge_scale lock .b bnd cur =
        if 0 < edgeHalf0 .b bnd ∧ 0 < edgeHalf1 .b bnd cur then
          some (if lock then
                  (edgeHalf1 .b bnd cur / edgeHalf0 .b bnd,
                   edgeHalf1 .b bnd cur / edgeHalf0 .b bnd)
                else (1, edgeHalf1 .b bnd cur / edgeHalf0 .b bnd))
        else Option.none by unfold handle_edge_scale; rw [if_neg hlr]]
    rw [if_pos ⟨h0, h1⟩, if_neg hlr]

/-- Witness for C5: Scenario C.  Right-edge drag with aspect lock off,
drag-start width 200 (half-width 100) and center x = 300, current pointer
x = 450: the emitted pair is (1.5, 1.0). -/
theorem c5_edge_axis_scale_witness :
    handle_edge_scale false .r ⟨200, 0, 200, 100⟩ ⟨450, 50⟩ = some (3/2, 1) := by
  have h0 : edgeHalf0 .r ⟨200, 0, 200, 100⟩ = 100 := by
    unfold edgeHalf0
    rw [if_pos (Or.inr rfl)]
    norm_num
  have h1 : edgeHalf1 .r ⟨200, 0, 200, 100⟩ ⟨450, 50⟩ = 150 := by
    unfold edgeHalf1
    rw [if_pos (Or.inr rfl), if_pos rfl]
    unfold Rect.center
    norm_num
  have happ := c5_edge_axis_scale false .r (Or.inr (Or.inl rfl)) ⟨200, 0, 200, 100⟩ ⟨450, 50⟩
    (by rw [h0]; norm_num) (by rw [h1]; norm_num)
  rw [happ, if_neg (by simp : ¬ false = true),
    if_pos (Or.inr rfl : Handle.r = Handle.l ∨ Handle.r = Handle.r), h0, h1]
  norm_num

/-- For the C6 analysis: a handle among rotate and the corners is neither
`move` nor `none`. -/
theorem hit_ne_aux {x : Handle}
    (hx : x = .rotate ∨ x = .tl ∨ x = .tr ∨ x = .bl ∨ x = .br) :
    x ≠ .move ∧ x ≠ .none := by
  rcases hx with rfl | rfl | rfl | rfl | rfl <;>
    exact ⟨fun h => Handle.noConfusion h, fun h => Handle.noConfusion h⟩

/-- Claim C6, corrected.  `hit_test` checks in the fixed order rotation handle,
corners tl, tr, bl, br, edges, inside-box (`move`), `none`.  With handles
visible and non-empty bounds, a point inside a corner's hit area and inside
the rotated box interior never resolves to `move` or `none`: it resolves to
the rotation handle or some corner handle, and to the dragged corner itself
whenever the point lies in neither the rotation handle's hit area nor an
earlier-checked corner's hit area.  (It need not be THAT corner when hit
areas overlap on a small box; see the counterexample.) -/
theorem c6_hit_priority (bnd : Rect) (rot : ℝ) (pos : Pt) (c : Handle)
    (hc : c = .tl ∨ c = .tr ∨ c = .bl ∨ c = .br)
    (hne : ¬ bnd.isEmpty)
    (hin : point_in_handle pos (get_handle_positions bnd rot c) handle_size)
    (hbox : point_in_rotated_bounds bnd rot pos) :
    hit_test true bnd rot pos ≠ .move ∧
    hit_test true bnd rot pos ≠ .none ∧
    (hit_test true bnd rot pos = .rotate ∨ hit_test true bnd rot pos = .tl ∨
      hit_test true bnd rot pos = .tr ∨ hit_test true bnd rot pos = .bl ∨
      hit_test true bnd rot pos = .br) ∧
    (¬ point_in_handle pos (get_handle_positions bnd rot .rotate) rotation_handle_size →
      (∀ c' ∈ earlierCorners c,
        ¬ point_in_handle pos (get_handle_positions bnd rot c') handle_size) →
      hit_test true bnd rot pos = c) := by
  have hv : ¬ (true = false ∨ bnd.isEmpty) := by
    rintro (h | h)
    · exact Bool.noConfusion h
    · exact hne h
  by_cases hrot : point_in_handle pos (get_handle_positions bnd rot .rotate)
      rotation_handle_size
  · have hres : hit_test true bnd rot pos = .rotate := by
      unfold hit_test
      rw [if_neg hv, if_pos hrot]
    have hor : hit_test true bnd rot pos = .rotate ∨ hit_test true bnd rot pos = .tl ∨
        hit_test true bnd rot pos = .tr ∨ hit_test true bnd rot pos = .bl ∨
        hit_test true bnd rot pos = .br := Or.inl hres
    exact ⟨(hit_ne_aux hor).1, (hit_ne_aux hor).2, hor, fun hr _ => absurd hrot hr⟩
  · rcases hc with rfl | rfl | rfl | rfl
    · have hres : hit_test true bnd rot pos = .tl := by
        unfold hit_test
        rw [if_neg hv, if_neg hrot, if_pos hin]
      have hor : hit_test true bnd rot pos = .rotate ∨ hit_test true bnd rot pos = .tl ∨
          hit_test true bnd rot pos = .tr ∨ hit_test true bnd rot pos = .bl ∨
          hit_test true bnd rot pos = .br := Or.inr (Or.inl hres)
      exact ⟨(hit_ne_aux hor).1, (hit_ne_aux hor).2, hor, fun _ _ => hres⟩
    · by_cases htl : point_in_handle pos (get_handle_positions bnd rot .tl) handle_size
      · have hres : hit_test true bnd rot pos = .tl := by
          unfold hit_test
          rw [if_neg hv, if_neg hrot, if_pos htl]
        have hor : hit_test true bnd rot pos = .rotate ∨ hit_test true bnd rot pos = .tl ∨
            hit_test true bnd rot pos = .tr ∨ hit_test true bnd rot pos = .bl ∨
            hit_test true bnd rot pos = .br := Or.inr (Or.inl hres)
        refine ⟨(hit_ne_aux hor).1, (hit_ne_aux hor).2, hor, fun _ hearly => ?_⟩
        exact absurd htl (hearly .tl (by simp [earlierCorners]))
      · have hres : hit_test true bnd rot pos = .tr := by
          unfold hit_test
          rw [if_neg hv, if_neg hrot, if_neg htl, if_pos hin]
        have hor : hit_test true bnd rot pos = .rotate ∨ hit_test true bnd rot pos = .tl ∨
            hit_test true bnd rot pos = .tr ∨ hit_test true bnd rot pos = .bl ∨
            hit_test true bnd rot pos = .br := Or.inr (Or.inr (Or.inl hres))
        exact ⟨(hit_ne_aux hor).1, (hit_ne_aux hor).2, hor, fun _ _ => hres⟩
    · by_cases htl : point_in_handle pos (get_handle_positions bnd rot .tl) handle_size
      · have hres : hit_test true bnd rot pos = .tl := by
          unfold hit_test
          rw [if_neg hv, if_neg hrot, if_pos htl]
        have hor : hit_test true bnd rot pos = .rotate ∨ hit_test true bnd rot pos = .tl ∨
            hit_test true bnd rot pos = .tr ∨ hit_test true bnd rot pos = .bl ∨
            hit_test true bnd rot pos = .br := Or.inr (Or.inl hres)
        refine ⟨(hit_ne_aux hor).1, (hit_ne_aux hor).2, hor, fun _ hearly => ?_⟩
        exact absurd htl (hearly .tl (by simp [earlierCorners]))
      · by_cases htr : point_in_handle pos (get_handle_positions bnd rot .tr) handle_size
        · have hres : hit_test true bnd rot pos = .tr := by
            unfold hit_test
            rw [if_neg hv, if_neg hrot, if_neg htl, if_pos htr]
          have hor : hit_test true bnd rot pos = .rotate ∨ hit_test true bnd rot pos = .tl ∨
              hit_test true bnd rot pos = .tr ∨ hit_test true bnd rot pos = .bl ∨
              hit_test true bnd rot pos = .br := Or.inr (Or.inr (Or.inl hres))
          refine ⟨(hit_ne_aux hor).1, (hit_ne_aux hor).2, hor, fun _ hearly => ?_⟩
          exact absurd htr (hearly .tr (by simp [earlierCorners]))
        · have hres : hit_test true bnd rot pos = .bl := by
            unfold hit_test
            rw [if_neg hv, if_neg hrot, if_neg htl, if_neg htr, if_pos hin]
          have hor : hit_test true bnd rot pos = .rotate ∨ hit_test true bnd rot pos = .tl ∨
              hit_test true bnd rot pos = .tr ∨ hit_test true bnd rot pos = .bl ∨
              hit_test true bnd rot pos = .br := Or.inr (Or.inr (Or.inr (Or.inl hres)))
          exact ⟨(hit_ne_aux hor).1, (hit_ne_aux hor).2, hor, fun _ _ => hres⟩
    · by_cases htl : point_in_handle pos (get_handle_positions bnd rot .tl) handle_size
      · have hres : hit_test true bnd rot pos = .tl := by
          unfold hit_test
          rw [if_neg hv, if_neg hrot, if_pos htl]
        have hor : hit_test true bnd rot pos = .rotate ∨ hit_test true bnd rot pos = .tl ∨
            hit_test true bnd rot pos = .tr ∨ hit_test true bnd rot pos = .bl ∨
            hit_test true bnd rot pos = .br := Or.inr (Or.inl hres)
        refine ⟨(hit_ne_aux hor).1, (hit_ne_aux hor).2, hor, fun _ hearly => ?_⟩
        exact absurd htl (hearly .tl (by simp [earlierCorners]))
      · by_cases htr : point_in_handle pos (get_handle_positions bnd rot .tr) handle_size
        · have hres : hit_test true bnd rot pos = .tr := by
            unfold hit_test
            rw [if_neg hv, if_neg hrot, if_neg htl, if_pos htr]
          have hor : hit_test true bnd rot pos = .rotate ∨ hit_test true bnd rot pos = .tl ∨
              hit_test true bnd rot pos = .tr ∨ hit_test true bnd rot pos = .bl ∨
              hit_test true bnd rot pos = .br := Or.inr (Or.inr (Or.inl hres))
          refine ⟨(hit_ne_aux hor).1, (hit_ne_aux hor).2, hor, fun _ hearly => ?_⟩
          exact absurd htr (hearly .tr (by simp [earlierCorners]))
        · by_cases hbl : point_in_handle pos (get_handle_positions bnd rot .bl) handle_size
          · have hres : hit_test true bnd rot pos = .bl := by
              unfold hit_test
              rw [if_neg hv, if_neg hrot, if_neg htl, if_neg htr, if_pos hbl]
            have hor : hit_test true bnd rot pos = .rotate ∨ hit_test true bnd rot pos = .tl ∨
                hit_test true bnd rot pos = .tr ∨ hit_test true bnd rot pos = .bl ∨
                hit_test true bnd rot pos = .br := Or.inr (Or.inr (Or.inr (Or.inl hres)))
            refine ⟨(hit_ne_aux hor).1, (hit_ne_aux hor).2, hor, fun _ hearly => ?_⟩
            exact absurd hbl (hearly .bl (by simp [earlierCorners]))
          · have hres : hit_test true bnd rot pos = .br := by
              unfold hit_test
              rw [if_neg hv, if_neg hrot, if_neg htl, if_neg htr, if_neg hbl, if_pos hin]
            have hor : hit_test true bnd rot pos = .rotate ∨ hit_test true bnd rot pos = .tl ∨
                hit_test true bnd rot pos = .tr ∨ hit_test true bnd rot pos = .bl ∨
                hit_test true bnd rot pos = .br := Or.inr (Or.inr (Or.inr (Or.inr hres)))
            exact ⟨(hit_ne_aux hor).1, (hit_ne_aux hor).2, hor, fun _ _ => hres⟩

/-- Witness for C6: on a 200-square box at rotation 0, the point (1,1) lies in
the top-left corner's hit area, inside the box, outside the rotation handle's
area, with no earlier corner; `hit_test` yields `tl`. -/
theorem c6_hit_priority_witness :
    hit_test true ⟨0, 0, 200, 200⟩ 0 ⟨1, 1⟩ = .tl := by
  have hne : ¬ Rect.isEmpty ⟨0, 0, 200, 200⟩ := by
    rintro (h | h) <;> norm_num at h
  have htlpos : get_handle_positions ⟨0, 0, 200, 200⟩ 0 .tl = (⟨0, 0⟩ : Pt) := by
    norm_num [get_handle_positions, Rect.topLeft]
  have hrotpos : get_handle_positions ⟨0, 0, 200, 200⟩ 0 .rotate = (⟨100, -35⟩ : Pt) := by
    norm_num [get_handle_positions, Rect.topLeft, Rect.topRight, rotation_handle_distance,
      Pt.mk.injEq]
  have hin : point_in_handle ⟨1, 1⟩ (get_handle_positions ⟨0, 0, 200, 200⟩ 0 .tl)
      handle_size := by
    rw [htlpos]
    norm_num [point_in_handle, handle_size, abs_le]
  have hbox : point_in_rotated_bounds ⟨0, 0, 200, 200⟩ 0 ⟨1, 1⟩ := by
    refine ⟨hne, ?_⟩
    have hpt : rotateAbout (Rect.center ⟨0, 0, 200, 200⟩) (-(0 : ℝ)) ⟨1, 1⟩ =
        (⟨1, 1⟩ : Pt) := by
      norm_num [rotateAbout, Rect.center, Real.cos_zero, Real.sin_zero]
    rw [hpt]
    norm_num [Rect.containsPt]
  have hrotmiss : ¬ point_in_handle ⟨1, 1⟩ (get_handle_positions ⟨0, 0, 200, 200⟩ 0 .rotate)
      rotation_handle_size := by
    rw [hrotpos]
    norm_num [point_in_handle, rotation_handle_size, abs_le]
  exact (c6_hit_priority ⟨0, 0, 200, 200⟩ 0 ⟨1, 1⟩ .tl (Or.inl rfl) hne hin hbox).2.2.2
    hrotmiss (by intro c' hc'; simp [earlierCorners] at hc')

/-- Counterexample to C6 as stated: on a 4 by 4 box at rotation 0 the point
(2,2) lies inside the TOP-RIGHT corner's hit area (the padded hit squares of a
small box overlap) and inside the box interior, yet `hit_test` resolves it to
`tl`, the first corner in the check order, not to `tr`. -/
theorem c6_counterexample :
    point_in_handle ⟨2, 2⟩ (get_handle_positions ⟨0, 0, 4, 4⟩ 0 .tr) handle_size ∧
    point_in_rotated_bounds ⟨0, 0, 4, 4⟩ 0 ⟨2, 2⟩ ∧
    hit_test true ⟨0, 0, 4, 4⟩ 0 ⟨2, 2⟩ = .tl ∧
    Handle.tl ≠ Handle.tr := by
  have hne : ¬ Rect.isEmpty ⟨0, 0, 4, 4⟩ := by
    rintro (h | h) <;> norm_num at h
  have hv : ¬ (true = false ∨ Rect.isEmpty ⟨0, 0, 4, 4⟩) := by
    rintro (h | h)
    · exact Bool.noConfusion h
    · exact hne h
  have htrpos : get_handle_positions ⟨0, 0, 4, 4⟩ 0 .tr = (⟨4, 0⟩ : Pt) := by
    norm_num [get_handle_positions, Rect.topRight]
  have htlpos : get_handle_positions ⟨0, 0, 4, 4⟩ 0 .tl = (⟨0, 0⟩ : Pt) := by
    norm_num [get_handle_positions, Rect.topLeft]
  have hrotpos : get_handle_positions ⟨0, 0, 4, 4⟩ 0 .rotate = (⟨2, -35⟩ : Pt) := by
    norm_num [get_handle_positions, Rect.topLeft, Rect.topRight, rotation_handle_distance,
      Pt.mk.injEq]
  refine ⟨?_, ?_, ?_, fun h => Handle.noConfusion h⟩
  · rw [htrpos]
    norm_num [point_in_handle, handle_size, abs_le]
  · refine ⟨hne, ?_⟩
    have hpt : rotateAbout (Rect.center ⟨0, 0, 4, 4⟩) (-(0 : ℝ)) ⟨2, 2⟩ = (⟨2, 2⟩ : Pt) := by
      norm_num [rotateAbout, Rect.center, Real.cos_zero, Real.sin_zero]
    rw [hpt]
    norm_num [Rect.containsPt]
  · have hrotmiss : ¬ point_in_handle ⟨2, 2⟩ (get_handle_positions ⟨0, 0, 4, 4⟩ 0 .rotate)
        rotation_handle_size := by
      rw [hrotpos]
      norm_num [point_in_handle, rotation_handle_size, abs_le]
    have htlhit : point_in_handle ⟨2, 2⟩ (get_handle_positions ⟨0, 0, 4, 4⟩ 0 .tl)
        handle_size := by
      rw [htlpos]
      norm_num [point_in_handle, handle_size, abs_le]
    unfold hit_test
    rw [if_neg hv, if_neg hrotmiss, if_pos htlhit]

/-- Claim C7, confirmed.  Whenever the reference distance of a corner drag, or
either half-extent of an edge drag, is zero or negative, the handler emits
nothing for that move event (no division is performed and no error is raised),
so the layer state is unchanged by that event; the handlers are stateless, so
emission resumes on the next event with positive distances. -/
theorem c7_degenerate_no_emission :
    (∀ (lock : Bool) (h : Handle) (bnd : Rect) (p0 p1 : Pt),
      ¬ 0 < pointDist p0 (oppositeCorner bnd h) →
      handle_corner_scale lock h bnd p0 p1 = Option.none) ∧
    (∀ (lock : Bool) (h : Handle) (bnd : Rect) (cur : Pt),
      ¬ (0 < edgeHalf0 h bnd ∧ 0 < edgeHalf1 h bnd cur) →
      handle_edge_scale lock h bnd cur = Option.none) := by
  constructor
  · intro lock h bnd p0 p1 hd
    unfold handle_corner_scale
    rw [if_neg hd]
  · intro lock h bnd cur hc
    unfold handle_edge_scale
    by_cases hlr : h = .l ∨ h = .r
    · rw [if_pos hlr, if_neg hc]
    · rw [if_neg hlr, if_neg hc]

/-- Witness for C7: a corner drag whose drag-start pointer coincides with the
fixed corner (distance 0) emits nothing, and a right-edge drag on a width-0
box emits nothing. -/
theorem c7_degenerate_no_emission_witness :
    handle_corner_scale true .br ⟨500, 500, 100, 100⟩ ⟨500, 500⟩ ⟨700, 700⟩ = Option.none ∧
    handle_edge_scale true .r ⟨0, 0, 0, 10⟩ ⟨5, 5⟩ = Option.none := by
  constructor
  · apply c7_degenerate_no_emission.1
    have hz : pointDist ⟨500, 500⟩ (oppositeCorner ⟨500, 500, 100, 100⟩ .br) = 0 := by
      rw [show oppositeCorner ⟨500, 500, 100, 100⟩ .br = (⟨500, 500⟩ : Pt) from rfl]
      unfold pointDist
      norm_num
    rw [hz]
    norm_num
  · apply c7_degenerate_no_emission.2
    rintro ⟨ha, -⟩
    have h0 : edgeHalf0 .r ⟨0, 0, 0, 10⟩ = 0 := by
      unfold edgeHalf0
      rw [if_pos (Or.inr rfl)]
      norm_num
    rw [h0] at ha
    exact lt_irrefl _ ha

/-- Claim C2, corrected.  The gesture path `_on_handle_scale` clamps the new
scale into [0.1, 10] for the background and [0.05, 2] for the logo, for every
drag-start baseline and emitted multiplier, without raising an error.  The
direct-numeric-entry path `_on_scale_spinbox_changed` does NOT share this
clamp: it assigns `value / 100` directly, bounded only by the spinbox widget
range 1..1000 percent, giving values in [0.01, 10] for either layer. -/
theorem c2_scale_clamp_paths :
    (∀ sz sl sx sy : ℚ, 1/10 ≤ CustomImageTab.on_handle_scale .background sz sl sx sy ∧
      CustomImageTab.on_handle_scale .background sz sl sx sy ≤ 10) ∧
    (∀ sz sl sx sy : ℚ, 1/20 ≤ CustomImageTab.on_handle_scale .logo sz sl sx sy ∧
      CustomImageTab.on_handle_scale .logo sz sl sx sy ≤ 2) ∧
    (∀ (layer : Layer) (v : ℚ), 1 ≤ v → v ≤ 1000 →
      CustomImageTab.on_scale_spinbox_changed layer v = v / 100 ∧
      1/100 ≤ CustomImageTab.on_scale_spinbox_changed layer v ∧
      CustomImageTab.on_scale_spinbox_changed layer v ≤ 10) := by
  refine ⟨?_, ?_, ?_⟩
  · intro sz sl sx sy
    simp only [CustomImageTab.on_handle_scale]
    exact ⟨le_max_left _ _, max_le (by norm_num) (min_le_left _ _)⟩
  · intro sz sl sx sy
    simp only [CustomImageTab.on_handle_scale]
    exact ⟨le_max_left _ _, max_le (by norm_num) (min_le_left _ _)⟩
  · intro layer v h1 h2
    cases layer <;>
      exact ⟨rfl, by unfold CustomImageTab.on_scale_spinbox_changed; constructor <;> linarith⟩

/-- Witness for C2 at concrete inputs: a gesture result and a spinbox entry at
500 percent. -/
theorem c2_scale_clamp_paths_witness :
    CustomImageTab.on_scale_spinbox_changed .background 500 = 5 ∧
    1/100 ≤ CustomImageTab.on_scale_spinbox_changed .background 500 := by
  have h := c2_scale_clamp_paths.2.2 .background 500 (by norm_num) (by norm_num)
  refine ⟨?_, h.2.1⟩
  rw [h.1]
  norm_num

/-- Counterexample to C2 as stated: the spinbox path does not pass through the
clamp.  Entering 1000 percent with the logo layer active stores a logo scale of
10, outside [0.05, 2]; entering 1 percent with the background active stores a
zoom of 0.01, outside [0.1, 10]. -/
theorem c2_counterexample :
    CustomImageTab.on_scale_spinbox_changed .logo 1000 = 10 ∧
    ¬ (CustomImageTab.on_scale_spinbox_changed .logo 1000 ≤ 2) ∧
    CustomImageTab.on_scale_spinbox_changed .background 1 = 1/100 ∧
    ¬ ((1:ℚ)/10 ≤ CustomImageTab.on_scale_spinbox_changed .background 1) := by
  refine ⟨?_, ?_, ?_, ?_⟩ <;> norm_num [CustomImageTab.on_scale_spinbox_changed]

/-- Claim C3, corrected.  For every drag-start baseline and rotation delta the
stored background rotation lies in the CLOSED interval [-180, 180] (the value
-180 itself is attainable, see the counterexample), and normalization is
idempotent. -/
theorem c3_rotation_interval_idempotent :
    (∀ baseline delta : ℚ, -180 ≤ CustomImageTab.on_handle_rotation baseline delta ∧
      CustomImageTab.on_handle_rotation baseline delta ≤ 180) ∧
    (∀ r : ℚ, CustomImageTab.normalizeRotation (CustomImageTab.normalizeRotation r) =
      CustomImageTab.normalizeRotation r) := by
  constructor
  · intro baseline delta
    exact normalizeRotation_mem _
  · intro r
    have h := normalizeRotation_mem r
    exact normalizeRotation_fixed h.1 h.2

/-- Counterexample to C3's half-open interval: baseline 0 with delta -180 (a
half-turn drag) stores exactly -180, which is not in (-180, 180]. -/
theorem c3_counterexample :
    CustomImageTab.on_handle_rotation 0 (-180) = -180 ∧
    ¬ (-180 < CustomImageTab.on_handle_rotation 0 (-180)) := by
  have h : CustomImageTab.on_handle_rotation 0 (-180) = -180 := by
    unfold CustomImageTab.on_handle_rotation
    rw [show (0 : ℚ) + -180 = -180 by norm_num]
    exact normalizeRotation_fixed (by norm_num) (by norm_num)
  exact ⟨h, by rw [h]; norm_num⟩

/-- Claim C8, confirmed.  After every position-delta application the stored
offset lies in [0, 1] (both layers), and when neither application engages the
clamp, applying +delta then -delta restores the offset exactly (stated for
zoom at least 1, for zoom below 1 where the background delta is inverted, and
for the logo layer). -/
theorem c8_offset_clamp_and_roundtrip :
    (∀ zoom offset delta : ℚ, 0 ≤ CustomImageTab.on_handle_position_bg zoom offset delta ∧
      CustomImageTab.on_handle_position_bg zoom offset delta ≤ 1) ∧
    (∀ offset delta : ℚ, 0 ≤ CustomImageTab.on_handle_position_logo offset delta ∧
      CustomImageTab.on_handle_position_logo offset delta ≤ 1) ∧
    (∀ zoom offset delta : ℚ, 1 ≤ zoom → 0 ≤ offset → offset ≤ 1 →
      0 ≤ offset + delta → offset + delta ≤ 1 →
      CustomImageTab.on_handle_position_bg zoom
        (CustomImageTab.on_handle_position_bg zoom offset delta) (-delta) = offset) ∧
    (∀ zoom offset delta : ℚ, zoom < 1 → 0 ≤ offset → offset ≤ 1 →
      0 ≤ offset - delta → offset - delta ≤ 1 →
      CustomImageTab.on_handle_position_bg zoom
        (CustomImageTab.on_handle_position_bg zoom offset delta) (-delta) = offset) ∧
    (∀ offset delta : ℚ, 0 ≤ offset → offset ≤ 1 →
      0 ≤ offset - delta → offset - delta ≤ 1 →
      CustomImageTab.on_handle_position_logo
        (CustomImageTab.on_handle_position_logo offset delta) (-delta) = offset) := by
  refine ⟨?_, ?_, ?_, ?_, ?_⟩
  · intro zoom offset delta
    unfold CustomImageTab.on_handle_position_bg
    exact ⟨le_max_left _ _, max_le (by norm_num) (min_le_left _ _)⟩
  · intro offset delta
    unfold CustomImageTab.on_handle_position_logo
    exact ⟨le_max_left _ _, max_le (by norm_num) (min_le_left _ _)⟩
  · intro zoom offset delta hz h0 h1 hp0 hp1
    unfold CustomImageTab.on_handle_position_bg
    rw [if_neg (not_lt.mpr hz), if_neg (not_lt.mpr hz), clamp01_of_mem hp0 hp1,
      show offset + delta + -delta = offset by ring, clamp01_of_mem h0 h1]
  · intro zoom offset delta hz h0 h1 hp0 hp1
    unfold CustomImageTab.on_handle_position_bg
    rw [if_pos hz, if_pos hz,
      show offset + - delta = offset - delta by ring, clamp01_of_mem hp0 hp1,
      show offset - delta + - -delta = offset by ring, clamp01_of_mem h0 h1]
  · intro offset delta h0 h1 hp0 hp1
    unfold CustomImageTab.on_handle_position_logo
    rw [clamp01_of_mem hp0 hp1, show offset - delta - -delta = offset by ring,
      clamp01_of_mem h0 h1]

/-- Witness for C8 at concrete inputs: round trips at zoom 2 (no inversion),
zoom 1/2 (inverted), and for the logo layer. -/
theorem c8_offset_clamp_and_roundtrip_witness :
    CustomImageTab.on_handle_position_bg 2
      (CustomImageTab.on_handle_position_bg 2 (1/2) (1/4)) (-(1/4)) = 1/2 ∧
    CustomImageTab.on_handle_position_bg (1/2)
      (CustomImageTab.on_handle_position_bg (1/2) (1/2) (1/4)) (-(1/4)) = 1/2 ∧
    CustomImageTab.on_handle_position_logo
      (CustomImageTab.on_handle_position_logo (1/2) (1/4)) (-(1/4)) = 1/2 :=
  ⟨c8_offset_clamp_and_roundtrip.2.2.1 2 (1/2) (1/4) (by norm_num) (by norm_num)
      (by norm_num) (by norm_num) (by norm_num),
   c8_offset_clamp_and_roundtrip.2.2.2.1 (1/2) (1/2) (1/4) (by norm_num) (by norm_num)
      (by norm_num) (by norm_num) (by norm_num),
   c8_offset_clamp_and_roundtrip.2.2.2.2 (1/2) (1/4) (by norm_num) (by norm_num)
      (by norm_num) (by norm_num)⟩

/-- Claim C9, confirmed.  The background position delta is inverted exactly
when `zoom < 1.0` under the strict comparison; at zoom exactly 1 and above no
inversion is applied. -/
theorem c9_pan_inversion_strict_boundary :
    (∀ zoom offset delta : ℚ, zoom < 1 →
      CustomImageTab.on_handle_position_bg zoom offset delta =
        max 0 (min 1 (offset - delta))) ∧
    (∀ zoom offset delta : ℚ, 1 ≤ zoom →
      CustomImageTab.on_handle_position_bg zoom offset delta =
        max 0 (min 1 (offset + delta))) := by
  constructor
  · intro zoom offset delta hz
    unfold CustomImageTab.on_handle_position_bg
    rw [if_pos hz, show offset + -delta = offset - delta by ring]
  · intro zoom offset delta hz
    unfold CustomImageTab.on_handle_position_bg
    rw [if_neg (not_lt.mpr hz)]

/-- Witness for C9: at zoom exactly 1 the delta is applied without inversion;
at zoom 1/2 it is inverted. -/
theorem c9_pan_inversion_strict_boundary_witness :
    CustomImageTab.on_handle_position_bg 1 (1/2) (1/4) = 3/4 ∧
    CustomImageTab.on_handle_position_bg (1/2) (1/2) (1/4) = 1/4 := by
  constructor
  · rw [c9_pan_inversion_strict_boundary.2 1 (1/2) (1/4) (by norm_num)]
    norm_num
  · rw [c9_pan_inversion_strict_boundary.1 (1/2) (1/2) (1/4) (by norm_num)]
    norm_num

/-- Claim C10, corrected.  `_on_handle_scale` consumes only the x-component of
the emitted scale pair (the y-component is never read), so a (1.0, scale_y)
pair — as emitted by a top/bottom-edge drag with aspect lock off — sets the
scale to clamp(baseline); this leaves the stored scale unchanged whenever the
baseline already lies in the clamp range, which can fail only for baselines
placed outside the range by the unclamped spinbox path. -/
theorem c10_scale_consumes_only_x :
    (∀ (layer : Layer) (sz sl sx sy sy' : ℚ),
      CustomImageTab.on_handle_scale layer sz sl sx sy =
      CustomImageTab.on_handle_scale layer sz sl sx sy') ∧
    (∀ sz sl sy : ℚ, 1/10 ≤ sz → sz ≤ 10 →
      CustomImageTab.on_handle_scale .background sz sl 1 sy = sz) ∧
    (∀ sz sl sy : ℚ, 1/20 ≤ sl → sl ≤ 2 →
      CustomImageTab.on_handle_scale .logo sz sl 1 sy = sl) := by
  refine ⟨?_, ?_, ?_⟩
  · intro layer sz sl sx sy sy'
    cases layer <;> rfl
  · intro sz sl sy h1 h2
    simp only [CustomImageTab.on_handle_scale]
    rw [mul_one, min_eq_right h2, max_eq_right h1]
  · intro sz sl sy h1 h2
    simp only [CustomImageTab.on_handle_scale]
    rw [mul_one, min_eq_right h2, max_eq_right h1]

/-- Witness for C10 at concrete inputs: a (1.0, 7) pair leaves an in-range
background zoom of 2 unchanged. -/
theorem c10_scale_consumes_only_x_witness :
    CustomImageTab.on_handle_scale .background 2 (1/2) 1 7 = 2 :=
  c10_scale_consumes_only_x.2.1 2 (1/2) 7 (by norm_num) (by norm_num)

/-- Counterexample to C10's unconditional claim: with the stored zoom at 0.01
(reachable through the spinbox at 1 percent, which skips the clamp), a
top-edge drag with aspect lock off emits (1.0, scale_y) and the event changes
the stored zoom to clamp(0.01) = 0.1. -/
theorem c10_counterexample :
    CustomImageTab.on_scale_spinbox_changed .background 1 = 1/100 ∧
    CustomImageTab.on_handle_scale .background (1/100) (1/2) 1 5 = 1/10 ∧
    (1/10 : ℚ) ≠ 1/100 := by
  refine ⟨by norm_num [CustomImageTab.on_scale_spinbox_changed], ?_, by norm_num⟩
  simp only [CustomImageTab.on_handle_scale]
  rw [mul_one]
  rw [min_eq_right (by norm_num), max_eq_left (by norm_num)]

end Iisu
